import Mathlib

/-!
# sysinfo_influxdb: a shallow embedding of `main.go`

The program samples CPU, memory, swap, uptime, load and network counters,
shapes them into InfluxDB `Series` and prints them and/or writes them to a
sink.  The embedding below follows `main.go` function by function.

Conventions of the embedding

* Go strings are Lean `String`s (valid UTF-8 text); the helpers taken from
  the Go standard library (`strings.Split`, `strings.Trim`, `strings.Fields`,
  `strconv.Atoi`) work on the list of characters.
* A Go run-time panic (index out of range) is the constructor `Run.panic`.
* A Go function returning `(T, error)` where exactly one of the two is set
  returns `Except Error T`; `network_parse_iface_line`, which can also return
  `(nil, nil)`, returns both components.
* The operating system (gosigar, `/proc/net/dev`) and the InfluxDB client
  are parameters: records of the answers their calls give.
* `int` is 64 bits wide (`strconv.Atoi` fails outside of that range).
-/

namespace Sysinfo

/-! ## Data model -/

/-- A Go `error` value. -/
structure Error where
  msg : String
deriving DecidableEq

/-- The dynamic values stored in a row (`interface{}` in the source): the
program stores `int`, `uint64`, `float64` (kept as its IEEE bit pattern, no
arithmetic is done on it) and `string`. -/
inductive Value where
  | int (v : Int)
  | uint (v : Nat)
  | float (bits : Nat)
  | str (s : String)
deriving DecidableEq

/-- The type `influxClient.Series`. -/
structure Series where
  Name : String
  Columns : List String
  Points : List (List Value)
deriving DecidableEq

/-- The outcome of running Go code that may panic. -/
inductive Run (α : Type) where
  | panic : Run α
  | done (a : α) : Run α
deriving DecidableEq

deriving instance DecidableEq for Except

/-- The pair `(*Series, error)` returned by `network_parse_iface_line`. -/
structure ParseRet where
  serie : Option Series
  err : Option Error
deriving DecidableEq

/-! ## Go standard library helpers -/

/-- The function `strings.Split(s, sep)` for a one-character separator: all
the pieces between separators, `[s]` when `s` has no separator. -/
def goSplit (sep : Char) : List Char → List (List Char)
  | [] => [[]]
  | c :: cs =>
    if c = sep then [] :: goSplit sep cs
    else
      match goSplit sep cs with
      | [] => [[c]]
      | piece :: pieces => (c :: piece) :: pieces

/-- The function `strings.Trim(s, " ")`: leading and trailing U+0020 removed. -/
def goTrimSpace (s : List Char) : List Char :=
  ((s.dropWhile (fun c => c == ' ')).reverse.dropWhile (fun c => c == ' ')).reverse

/-- The predicate `unicode.IsSpace`: the characters `strings.Fields` splits
around. -/
def isSpace (c : Char) : Bool :=
  let n := c.toNat
  (9 ≤ n && n ≤ 13) || n == 0x20 || n == 0x85 || n == 0xA0 || n == 0x1680 ||
  (0x2000 ≤ n && n ≤ 0x200A) || n == 0x2028 || n == 0x2029 || n == 0x202F ||
  n == 0x205F || n == 0x3000

/-- The scan of `strings.Fields`: `cur` is the field being read, reversed. -/
def goFieldsAux : List Char → List Char → List (List Char)
  | [], cur => if cur.isEmpty then [] else [cur.reverse]
  | c :: cs, cur =>
    if isSpace c then
      if cur.isEmpty then goFieldsAux cs [] else cur.reverse :: goFieldsAux cs []
    else goFieldsAux cs (c :: cur)

/-- The function `strings.Fields`: the maximal runs of non-space characters. -/
def goFields (s : List Char) : List (List Char) := goFieldsAux s []

/-- Width of the Go type `int`. -/
def intSize : Nat := 64

/-- Value of a run of decimal digits, most significant first; `none` when a
character is not an ASCII digit. -/
def parseDigits : List Char → Nat → Option Nat
  | [], acc => some acc
  | c :: cs, acc =>
    if '0' ≤ c ∧ c ≤ '9' then parseDigits cs (acc * 10 + (c.toNat - '0'.toNat))
    else none

/-- The sign that may open a number: whether it is a minus, and the text
after it. -/
def splitSign : List Char → Bool × List Char
  | '-' :: ds => (true, ds)
  | '+' :: ds => (false, ds)
  | ds => (false, ds)

/-- The function `strconv.Atoi`: an optional sign, at least one decimal
digit, nothing else, and a value that fits `int`; `none` stands for a
non-nil error. -/
def atoi (s : List Char) : Option Int :=
  let neg := (splitSign s).1
  let digits := (splitSign s).2
  if digits.isEmpty then none
  else
    match parseDigits digits 0 with
    | none => none
    | some n =>
      if neg then (if n ≤ 2 ^ (intSize - 1) then some (-(n : Int)) else none)
      else (if n < 2 ^ (intSize - 1) then some (n : Int) else none)

/-! ## Network data related functions -/

/-- The 16 column names of a network Series. -/
def ifaceColumns : List String :=
  [ "recv_bytes", "recv_packets", "recv_errs",
    "recv_drop", "recv_fifo", "recv_frame",
    "recv_compressed", "recv_multicast",
    "trans_bytes", "trans_packets", "trans_errs",
    "trans_drop", "trans_fifo", "trans_colls",
    "trans_carrier", "trans_compressed" ]

/-- The statement `if prefix != "" { prefix += "." }` that opens every
collector. -/
def addDot (pfx : String) : String :=
  if pfx ≠ "" then pfx ++ "." else pfx

/-- The loop `for i := 0; i < len(serie.Columns); i++` of
`network_parse_iface_line`: `k` iterations are left, `i` is the index and
`points` the values appended so far.  Reading `tmp[i]` past the end of `tmp`
panics. -/
def parsePoints (tmp : List (List Char)) : Nat → Nat → List Value → Run (List Value)
  | 0, _, points => Run.done points
  | k + 1, i, points =>
    match tmp[i]? with
    | none => Run.panic
    | some tok =>
      match atoi tok with
      | some v => parsePoints tmp k (i + 1) (points ++ [Value.int v])
      | none => parsePoints tmp k (i + 1) (points ++ [Value.int 0])

/-- The part of `network_parse_iface_line` that follows the length test:
`label` is `tmp[0]` and `data` is `tmp[1]`. -/
def parseIfaceParts (pfx : String) (label data : List Char) : Run ParseRet :=
  let iface := goTrimSpace label
  let serie : Series :=
    { Name := pfx ++ String.mk iface, Columns := ifaceColumns, Points := [] }
  let tmp := goFields data
  match parsePoints tmp serie.Columns.length 0 [] with
  | Run.panic => Run.panic
  | Run.done points =>
    Run.done { serie := some { serie with Points := serie.Points ++ [points] }, err := none }

/-- The function `network_parse_iface_line` of `main.go`. -/
def network_parse_iface_line (pfx : String) (line : String) : Run ParseRet :=
  let pfx := addDot pfx
  match goSplit ':' line.data with
  | label :: data :: _ => parseIfaceParts pfx label data
  | _ => Run.done { serie := none, err := none }

/-! ## The operating system and the sink, as seen by the program -/

/-- The type `sigar.Cpu`. -/
structure Cpu where
  User : Nat
  Nice : Nat
  Sys : Nat
  Idle : Nat
  Wait : Nat
  Irq : Nat
  SoftIrq : Nat
  Stolen : Nat
deriving DecidableEq

/-- The type `sigar.Mem`. -/
structure Mem where
  Total : Nat
  Used : Nat
  Free : Nat
  ActualFree : Nat
  ActualUsed : Nat
deriving DecidableEq

/-- The type `sigar.Swap`. -/
structure Swap where
  Total : Nat
  Used : Nat
  Free : Nat
deriving DecidableEq

/-- The type `sigar.Uptime`; the `float64` is kept as its bit pattern. -/
structure Uptime where
  Length : Nat
deriving DecidableEq

/-- The type `sigar.LoadAverage`; each `float64` is kept as its bit pattern. -/
structure LoadAverage where
  One : Nat
  Five : Nat
  Fifteen : Nat
deriving DecidableEq

/-- The file `/proc/net/dev` once opened, as `bufio.Scanner` delivers it:
the texts of the calls of `Scan` that returned true, and the error, if any,
that made `Scan` return false (`scanner.Err()`). -/
structure NetDev where
  lines : List String
  scanErr : Option Error

/-- The answers of the operating system to the queries of one run.
`cpuListGet` gives the list that `CpuList.Get` leaves in place together with
the error it returns; `cpuTotal` is the method `Cpu.Total` of gosigar. -/
structure OS where
  cpuGet : Except Error Cpu
  cpuTotal : Cpu → Nat
  cpuListGet : List Cpu × Option Error
  memGet : Except Error Mem
  swapGet : Except Error Swap
  uptimeGet : Except Error Uptime
  loadGet : Except Error LoadAverage
  openNetDev : Except Error NetDev

/-- The type `influxClient.ClientConfig`. -/
structure ClientConfig where
  Host : String
  Username : String
  Password : String
  Database : String
deriving DecidableEq

/-- A handle on an `influxClient.Client`. -/
structure Client where
  handle : Nat
deriving DecidableEq

/-- The InfluxDB client library: `NewClient` and `Client.WriteSeries`. -/
structure Influx where
  newClient : ClientConfig → Except Error Client
  writeSeries : Client → List Series → Option Error

/-! ## Gathering functions -/

/-- The row appended for one `sigar.Cpu`. -/
def cpuRow (os : OS) (id : String) (cpu : Cpu) : List Value :=
  [Value.str id, Value.uint cpu.User, Value.uint cpu.Nice, Value.uint cpu.Sys,
   Value.uint cpu.Idle, Value.uint cpu.Wait, Value.uint (os.cpuTotal cpu)]

/-- The loop `for i, cpu := range cpus.List` of `cpus`. -/
def cpusLoop (os : OS) : List Cpu → Nat → List (List Value) → List (List Value)
  | [], _, points => points
  | cpu :: rest, i, points =>
    cpusLoop os rest (i + 1) (points ++ [cpuRow os ("cpu" ++ toString i) cpu])

/-- The function `cpus` of `main.go`. -/
def cpus (os : OS) (pfx : String) : Except Error Series :=
  let pfx := addDot pfx
  let serie : Series :=
    { Name := pfx ++ "cpu",
      Columns := ["id", "user", "nice", "sys", "idle", "wait", "total"],
      Points := [] }
  match os.cpuGet with
  | Except.error err => Except.error err
  | Except.ok cpu =>
    let serie := { serie with Points := serie.Points ++ [cpuRow os "cpu" cpu] }
    -- the error returned by `cpus.Get()` is dropped
    let cpuList := os.cpuListGet.1
    Except.ok { serie with Points := cpusLoop os cpuList 0 serie.Points }

/-- The function `mem` of `main.go`. -/
def mem (os : OS) (pfx : String) : Except Error Series :=
  let pfx := addDot pfx
  let serie : Series :=
    { Name := pfx ++ "mem",
      Columns := ["free", "used", "actualfree", "actualused", "total"],
      Points := [] }
  match os.memGet with
  | Except.error err => Except.error err
  | Except.ok m =>
    Except.ok { serie with Points := serie.Points ++
      [[Value.uint m.Free, Value.uint m.Used, Value.uint m.ActualFree,
        Value.uint m.ActualUsed, Value.uint m.Total]] }

/-- The function `swap` of `main.go`. -/
def swap (os : OS) (pfx : String) : Except Error Series :=
  let pfx := addDot pfx
  let serie : Series :=
    { Name := pfx ++ "swap", Columns := ["free", "used", "total"], Points := [] }
  match os.swapGet with
  | Except.error err => Except.error err
  | Except.ok s =>
    Except.ok { serie with Points := serie.Points ++
      [[Value.uint s.Free, Value.uint s.Used, Value.uint s.Total]] }

/-- The function `uptime` of `main.go`. -/
def uptime (os : OS) (pfx : String) : Except Error Series :=
  let pfx := addDot pfx
  let serie : Series :=
    { Name := pfx ++ "uptime", Columns := ["length"], Points := [] }
  match os.uptimeGet with
  | Except.error err => Except.error err
  | Except.ok u =>
    Except.ok { serie with Points := serie.Points ++ [[Value.float u.Length]] }

/-- The function `load` of `main.go`. -/
def load (os : OS) (pfx : String) : Except Error Series :=
  let pfx := addDot pfx
  let serie : Series :=
    { Name := pfx ++ "load", Columns := ["one", "five", "fifteen"], Points := [] }
  match os.loadGet with
  | Except.error err => Except.error err
  | Except.ok l =>
    Except.ok { serie with Points := serie.Points ++
      [[Value.float l.One, Value.float l.Five, Value.float l.Fifteen]] }

/-- The loop `for scanner.Scan()` of `network` over the lines the scanner
delivers; `series` is the slice built so far. -/
def scanLoop (pfx : String) : List String → List Series → Run (List Series)
  | [], series => Run.done series
  | line :: rest, series =>
    match network_parse_iface_line pfx line with
    | Run.panic => Run.panic
    | Run.done r =>
      match r.err, r.serie with
      | none, some u => scanLoop pfx rest (series ++ [u])
      | _, _ => scanLoop pfx rest series

/-- The function `network` of `main.go`.  After the loop the function
returns `series, nil` without looking at `scanner.Err()`. -/
def network (os : OS) (pfx : String) : Run (Except Error (List Series)) :=
  match os.openNetDev with
  | Except.error err => Run.done (Except.error err)
  | Except.ok fi =>
    match scanLoop pfx fi.lines [] with
    | Run.panic => Run.panic
    | Run.done series => Run.done (Except.ok series)

/-! ## Interactions with InfluxDB -/

/-- What a call of `send` does: the text written to the standard output, the
calls of `WriteSeries` in order (argument and returned error) and the
returned `error`. -/
structure SendOut where
  stdout : String
  writes : List (List Series × Option Error)
  ret : Option Error
deriving DecidableEq

/-- The loop `for _, col := range serie.Columns` of the pretty printer. -/
def printColumns : List String → String → String
  | [], out => out
  | col :: cols, out => printColumns cols (out ++ "| " ++ col ++ "\t")

/-- The loop `for i := 0; i < nbCols; i++` of the pretty printer: `k`
iterations are left and `i` is the index; `value[i]` past the end of the row
panics.  `fmtV` is the default format of `fmt.Print` for a value. -/
def printCells (fmtV : Value → String) (value : List Value) :
    Nat → Nat → String → Run String
  | 0, _, out => Run.done out
  | k + 1, i, out =>
    match value[i]? with
    | none => Run.panic
    | some v => printCells fmtV value k (i + 1) (out ++ fmtV v ++ "\t| ")

/-- The loop `for _, value := range serie.Points` of the pretty printer. -/
def printPoints (fmtV : Value → String) (nbCols : Nat) :
    List (List Value) → String → Run String
  | [], out => Run.done out
  | value :: rest, out =>
    match printCells fmtV value nbCols 0 (out ++ "| ") with
    | Run.panic => Run.panic
    | Run.done out => printPoints fmtV nbCols rest (out ++ "\n")

/-- The loop `for ks, serie := range series` of the pretty printer. -/
def printSeries (fmtV : Value → String) : List Series → Nat → String → Run String
  | [], _, out => Run.done out
  | serie :: rest, ks, out =>
    let nbCols := serie.Columns.length
    let out := out ++ "\n#" ++ toString ks ++ ": " ++ serie.Name ++ "\n"
    let out := printColumns serie.Columns out
    let out := out ++ "|\n"
    match printPoints fmtV nbCols serie.Points out with
    | Run.panic => Run.panic
    | Run.done out => printSeries fmtV rest (ks + 1) out

/-- The function `send` of `main.go`; `config = none` is the nil pointer. -/
def send (db : Influx) (fmtV : Value → String) (verboseFlag : Bool)
    (config : Option ClientConfig) (series : List Series) : Run SendOut :=
  let printed : Run String :=
    if config = none ∨ verboseFlag = true then printSeries fmtV series 0 ""
    else Run.done ""
  match printed with
  | Run.panic => Run.panic
  | Run.done out =>
    match config with
    | some cfg =>
      match db.newClient cfg with
      | Except.error err => Run.done { stdout := out, writes := [], ret := some err }
      | Except.ok client =>
        -- `client.WriteSeries(series)`: the returned error is dropped
        let werr := db.writeSeries client series
        Run.done { stdout := out, writes := [(series, werr)], ret := none }
    | none => Run.done { stdout := out, writes := [], ret := none }

/-! ## The driver -/

/-- The command-line flags. -/
structure Flags where
  verboseFlag : Bool
  versionFlag : Bool
  prefixFlag : String
  hostFlag : String
  usernameFlag : String
  passwordFlag : String
  databaseFlag : String

/-- One step `if u, err := f(prefixFlag); err == nil { data = append(data, u) }
else { fmt.Fprintln(os.Stderr, err) }` of `main`, on the pair of `data` and
of the errors printed so far. -/
def collectOne (r : Except Error Series) (st : List Series × List Error) :
    List Series × List Error :=
  match r with
  | Except.ok u => (st.1 ++ [u], st.2)
  | Except.error err => (st.1, st.2 ++ [err])

/-- The inner loop `for _, v := range u { data = append(data, v) }`. -/
def appendAll : List Series → List Series → List Series
  | [], data => data
  | v :: rest, data => appendAll rest (data ++ [v])

/-- The collection part of `main`: the slice `data` handed to `send` and the
errors printed on the standard error stream. -/
def collect (os : OS) (prefixFlag : String) : Run (List Series × List Error) :=
  let st : List Series × List Error := ([], [])
  let st := collectOne (cpus os prefixFlag) st
  let st := collectOne (mem os prefixFlag) st
  let st := collectOne (swap os prefixFlag) st
  let st := collectOne (uptime os prefixFlag) st
  let st := collectOne (load os prefixFlag) st
  match network os prefixFlag with
  | Run.panic => Run.panic
  | Run.done (Except.ok u) => Run.done (appendAll u st.1, st.2)
  | Run.done (Except.error err) => Run.done (st.1, st.2 ++ [err])

/-- The connection settings built by `main`: nil unless `databaseFlag` is
set. -/
def mkConfig (flags : Flags) : Option ClientConfig :=
  if flags.databaseFlag ≠ "" then
    some { Host := flags.hostFlag, Username := flags.usernameFlag,
           Password := flags.passwordFlag, Database := flags.databaseFlag }
  else none

/-- What a run of `main` does: the text on the standard output, the errors
printed on the standard error stream, and the calls of `WriteSeries`. -/
structure MainOut where
  stdout : String
  stderr : List Error
  writes : List (List Series × Option Error)
deriving DecidableEq

/-- The function `main` of `main.go`; the error returned by `send` is
dropped. -/
def main (os : OS) (db : Influx) (fmtV : Value → String) (flags : Flags) : Run MainOut :=
  if flags.versionFlag = true then
    Run.done { stdout := "Version: 0.1.0\n", stderr := [], writes := [] }
  else
    match collect os flags.prefixFlag with
    | Run.panic => Run.panic
    | Run.done (data, errs) =>
      match send db fmtV flags.verboseFlag (mkConfig flags) data with
      | Run.panic => Run.panic
      | Run.done r => Run.done { stdout := r.stdout, stderr := errs, writes := r.writes }

/-! ## Definitions that follow the words of the specification -/

/-- The value stored for a token: its integer when `strconv.Atoi` accepts
it, `0` otherwise. -/
def tokenValue (tok : List Char) : Value := Value.int ((atoi tok).getD 0)

/-- The naming rule of the specification: the base name alone for an empty
prefix, the prefix, a dot and the base name otherwise. -/
def specName (pfx base : String) : String :=
  if pfx = "" then base else pfx ++ "." ++ base

/-- The text before the first separator and the text after it; `none` when
there is no separator. -/
def cutFirst (sep : Char) : List Char → Option (List Char × List Char)
  | [] => none
  | c :: cs =>
    if c = sep then some ([], cs)
    else (cutFirst sep cs).map (fun p => (c :: p.1, p.2))

/-- The line parser as the specification words it: the line is split on the
first colon only, the data part being all the text after it. -/
def parseFirstColon (pfx : String) (line : String) : Run ParseRet :=
  match cutFirst ':' line.data with
  | none => Run.done { serie := none, err := none }
  | some (label, data) => parseIfaceParts (addDot pfx) label data

/-- The Series invariant of the data model: every row has as many values as
the Series has columns. -/
def Series.WellFormed (s : Series) : Prop :=
  ∀ row ∈ s.Points, row.length = s.Columns.length

instance (s : Series) : Decidable s.WellFormed := by
  unfold Series.WellFormed
  infer_instance

/-- The Series a successful collector contributes: one, or none when it
failed. -/
def successes (r : Except Error Series) : List Series :=
  match r with
  | Except.ok u => [u]
  | Except.error _ => []

/-- The Series a line of the counter source contributes: the one the parser
returns, if any. -/
def lineSeries (pfx : String) (line : String) : List Series :=
  match network_parse_iface_line pfx line with
  | Run.done { serie := some u, err := none } => [u]
  | _ => []

/-- The text view of one Series as the specification describes it: a header
with every column name in order, then one line per row with every value in
column order. -/
def renderSeries (fmtV : Value → String) (ks : Nat) (s : Series) : String :=
  "\n#" ++ toString ks ++ ": " ++ s.Name ++ "\n" ++
  String.join (s.Columns.map (fun col => "| " ++ col ++ "\t")) ++ "|\n" ++
  String.join (s.Points.map (fun row =>
    "| " ++ String.join (row.map (fun v => fmtV v ++ "\t| ")) ++ "\n"))

/-- The text view of a list of Series: each Series in list order, numbered
from `ks`. -/
def renderAll (fmtV : Value → String) (ks : Nat) (series : List Series) : String :=
  String.join ((series.enumFrom ks).map (fun p => renderSeries fmtV p.1 p.2))

/-! ## Sample inputs -/

/-- A stand-in for the default format of `fmt.Print`. -/
def sampleFmt : Value → String
  | Value.int v => toString v
  | Value.uint v => toString v
  | Value.float bits => "float64(" ++ toString bits ++ ")"
  | Value.str s => s

/-- A sink whose client is created and whose batch write is rejected. -/
def rejectingSink : Influx :=
  { newClient := fun _ => Except.ok { handle := 0 },
    writeSeries := fun _ _ => some { msg := "write rejected" } }

/-- A sink whose client cannot be created. -/
def unreachableSink : Influx :=
  { newClient := fun _ => Except.error { msg := "connection refused" },
    writeSeries := fun _ _ => none }

/-- A sink that accepts every write. -/
def acceptingSink : Influx :=
  { newClient := fun _ => Except.ok { handle := 0 },
    writeSeries := fun _ _ => none }

/-- A sink configuration. -/
def sampleConfig : ClientConfig :=
  { Host := "localhost:8086", Username := "root", Password := "root", Database := "metrics" }

/-- A CPU sample. -/
def sampleCpu : Cpu :=
  { User := 10, Nice := 1, Sys := 5, Idle := 80, Wait := 4, Irq := 0, SoftIrq := 0, Stolen := 0 }

/-- The sum gosigar computes in `Cpu.Total`. -/
def sampleTotal (c : Cpu) : Nat :=
  (c.User + c.Nice + c.Sys + c.Idle + c.Wait + c.Irq + c.SoftIrq + c.Stolen) % 2 ^ 64

/-- A host on which every query succeeds: one logical CPU, two interfaces. -/
def sampleOS : OS :=
  { cpuGet := Except.ok sampleCpu,
    cpuTotal := sampleTotal,
    cpuListGet := ([sampleCpu], none),
    memGet := Except.ok { Total := 100, Used := 60, Free := 40, ActualFree := 50, ActualUsed := 50 },
    swapGet := Except.ok { Total := 10, Used := 0, Free := 10 },
    uptimeGet := Except.ok { Length := 0x40F86A0000000000 },
    loadGet := Except.ok { One := 0, Five := 0, Fifteen := 0 },
    openNetDev := Except.ok
      { lines := ["Inter-|   Receive                |  Transmit",
                  " face |bytes    packets errs drop fifo frame compressed multicast|bytes",
                  "    lo: 7 1 0 0 0 0 0 0 7 1 0 0 0 0 0 0",
                  "  eth0: 100 2 0 0 0 0 0 0 200 3 0 0 0 0 0 0"],
        scanErr := none } }

/-- The same host when the per-CPU list query fails after the aggregate
query succeeded. -/
def cpuListFailsOS : OS :=
  { sampleOS with cpuListGet := ([], some { msg := "open /proc/stat: permission denied" }) }

/-- The same host when reading the counter source fails after its second
line. -/
def netReadFailsOS : OS :=
  { sampleOS with
    openNetDev := Except.ok
      { lines := ["    lo: 7 1 0 0 0 0 0 0 7 1 0 0 0 0 0 0"],
        scanErr := some { msg := "read /proc/net/dev: input/output error" } } }

/-- The same host when the memory and the load queries fail. -/
def memLoadFailOS : OS :=
  { sampleOS with
    memGet := Except.error { msg := "mem unavailable" },
    loadGet := Except.error { msg := "load unavailable" } }

/-- The network Series of the interface `lo` of the sample host. -/
def sampleLo : Series :=
  { Name := "lo", Columns := ifaceColumns,
    Points := [[7, 1, 0, 0, 0, 0, 0, 0, 7, 1, 0, 0, 0, 0, 0, 0].map Value.int] }

/-- The network Series of the interface `eth0` of the sample host. -/
def sampleEth0 : Series :=
  { Name := "eth0", Columns := ifaceColumns,
    Points := [[100, 2, 0, 0, 0, 0, 0, 0, 200, 3, 0, 0, 0, 0, 0, 0].map Value.int] }

/-- A Series that breaks the invariant: two columns, a row of one value. -/
def shortRowSeries : Series :=
  { Name := "broken", Columns := ["a", "b"], Points := [[Value.int 1]] }

/-- The errors a collector contributes to the error stream: one when it
failed, none otherwise. -/
def failures {α : Type} (r : Except Error α) : List Error :=
  match r with
  | Except.ok _ => []
  | Except.error err => [err]

/-- The Series the network collector contributes: all of them when it
succeeded, none when it failed. -/
def flattened (r : Except Error (List Series)) : List Series :=
  match r with
  | Except.ok u => u
  | Except.error _ => []

/-- The list the specification expects from the driver: the Series of the
collectors that succeeded, in the order CPU, memory, swap, uptime, load,
network; `r` is what the network collector returned. -/
def collected (os : OS) (pfx : String) (r : Except Error (List Series)) : List Series :=
  successes (cpus os pfx) ++ successes (mem os pfx) ++ successes (swap os pfx) ++
    successes (uptime os pfx) ++ successes (load os pfx) ++ flattened r

/-- The errors of the collectors that failed, in the same order. -/
def reported (os : OS) (pfx : String) (r : Except Error (List Series)) : List Error :=
  failures (cpus os pfx) ++ failures (mem os pfx) ++ failures (swap os pfx) ++
    failures (uptime os pfx) ++ failures (load os pfx) ++ failures r

/-- The label part of a line: the text before its first colon. -/
def labelPart (line : String) : List Char :=
  line.data.takeWhile (fun c => c != ':')

/-- The data part of a line as the code takes it: the text after the first
colon, up to the second colon if there is one. -/
def dataPart (line : String) : List Char :=
  ((line.data.dropWhile (fun c => c != ':')).drop 1).takeWhile (fun c => c != ':')

/-- The interface name of a line: the text before its first colon without
the spaces around it. -/
def ifaceName (line : String) : String :=
  String.mk (goTrimSpace (line.data.takeWhile (fun c => c != ':')))

/-! ## Facts about the library helpers -/

theorem goSplit_ne_nil (sep : Char) (l : List Char) : goSplit sep l ≠ [] := by
  cases l with
  | nil => simp [goSplit]
  | cons c cs =>
    unfold goSplit
    split
    · simp
    · split <;> simp

theorem goSplit_no_sep (sep : Char) (l : List Char) (h : sep ∉ l) :
    goSplit sep l = [l] := by
  induction l with
  | nil => rfl
  | cons c cs ih =>
    have hc : c ≠ sep := fun e => h (by simp [e])
    have hcs : sep ∉ cs := fun e => h (by simp [e])
    simp [goSplit, hc, ih hcs]

theorem goSplit_append (sep : Char) (a b : List Char) (h : sep ∉ a) :
    goSplit sep (a ++ sep :: b) = a :: goSplit sep b := by
  induction a with
  | nil => simp [goSplit]
  | cons c cs ih =>
    have hc : c ≠ sep := fun e => h (by simp [e])
    have hcs : sep ∉ cs := fun e => h (by simp [e])
    simp [goSplit, hc, ih hcs]

theorem goSplit_head (sep : Char) (l : List Char) :
    (goSplit sep l).head? = some (l.takeWhile (fun c => c != sep)) := by
  induction l with
  | nil => rfl
  | cons c cs ih =>
    unfold goSplit
    by_cases hc : c = sep
    · simp [hc]
    · simp only [hc, if_false]
      cases hg : goSplit sep cs with
      | nil => exact absurd hg (goSplit_ne_nil sep cs)
      | cons piece pieces =>
        rw [hg] at ih
        simp only [List.head?_cons, Option.some.injEq] at ih
        simp [List.takeWhile_cons, hc, ih]

theorem parsePoints_ok (tmp : List (List Char)) :
    ∀ (k i : Nat) (points : List Value), i + k ≤ tmp.length →
      parsePoints tmp k i points =
        Run.done (points ++ ((tmp.drop i).take k).map tokenValue) := by
  intro k
  induction k with
  | zero => intro i points _; simp [parsePoints]
  | succ k ih =>
    intro i points h
    have hi : i < tmp.length := by omega
    have hd : tmp.drop i = tmp[i] :: tmp.drop (i + 1) :=
      List.drop_eq_getElem_cons hi
    unfold parsePoints
    rw [List.getElem?_eq_getElem hi]
    simp only []
    cases hat : atoi tmp[i] with
    | none =>
      simp only []
      rw [ih (i + 1) _ (by omega), hd, List.take_succ_cons, List.map_cons]
      simp [tokenValue, hat]
    | some v =>
      simp only []
      rw [ih (i + 1) _ (by omega), hd, List.take_succ_cons, List.map_cons]
      simp [tokenValue, hat]

theorem parsePoints_panic (tmp : List (List Char)) :
    ∀ (k i : Nat) (points : List Value), i ≤ tmp.length → tmp.length < i + k →
      parsePoints tmp k i points = Run.panic := by
  intro k
  induction k with
  | zero => intro i points h1 h2; omega
  | succ k ih =>
    intro i points h1 h2
    unfold parsePoints
    by_cases hi : i < tmp.length
    · rw [List.getElem?_eq_getElem hi]
      simp only []
      cases atoi tmp[i] <;> simp only [] <;> exact ih (i + 1) _ (by omega) (by omega)
    · rw [List.getElem?_eq_none (by omega)]

theorem specName_eq (pfx base : String) : addDot pfx ++ base = specName pfx base := by
  unfold addDot specName
  by_cases h : pfx = ""
  · subst h
    simp
  · simp [h, String.append_assoc]

theorem parse_of_split (pfx : String) (line : String) (label data : List Char)
    (rest : List (List Char)) (h : goSplit ':' line.data = label :: data :: rest) :
    network_parse_iface_line pfx line = parseIfaceParts (addDot pfx) label data := by
  simp [network_parse_iface_line, h]

theorem parseIfaceParts_ok (pfx : String) (label data : List Char)
    (h : 16 ≤ (goFields data).length) :
    parseIfaceParts pfx label data =
      Run.done { serie := some { Name := pfx ++ String.mk (goTrimSpace label),
                                 Columns := ifaceColumns,
                                 Points := [((goFields data).take 16).map tokenValue] },
                 err := none } := by
  have hlen : ifaceColumns.length = 16 := rfl
  simp [parseIfaceParts, hlen, parsePoints_ok (goFields data) 16 0 [] (by omega)]

theorem parseIfaceParts_panic (pfx : String) (label data : List Char)
    (h : (goFields data).length < 16) :
    parseIfaceParts pfx label data = Run.panic := by
  have hlen : ifaceColumns.length = 16 := rfl
  simp [parseIfaceParts, hlen, parsePoints_panic (goFields data) 16 0 [] (by omega) (by omega)]

theorem parse_short_line (pfx label data : String) (hlabel : ':' ∉ label.data)
    (hdata : ':' ∉ data.data) (htok : (goFields data.data).length < 16) :
    network_parse_iface_line pfx (label ++ ":" ++ data) = Run.panic := by
  have hsplit : goSplit ':' (label ++ ":" ++ data).data = [label.data, data.data] := by
    have hd : (label ++ ":" ++ data).data = label.data ++ ':' :: data.data := by
      simp [String.data_append]
    rw [hd, goSplit_append _ _ _ hlabel, goSplit_no_sep _ _ hdata]
  rw [parse_of_split pfx _ _ _ _ hsplit, parseIfaceParts_panic _ _ _ htok]

/-- C1: on a line whose data part has fewer than 16 tokens the parser does
not return a zero-filled row: reading `tmp[i]` past the last token panics.
Evaluated on a line with three tokens and on a line with none. -/
theorem parse_short_line_panics :
    network_parse_iface_line "" "eth0: 1 2 3" = Run.panic
      ∧ network_parse_iface_line "" "eth0:" = Run.panic
      ∧ network_parse_iface_line "host01" "eth0: 1 2 3 4 5 6 7 8 9 10 11 12 13 14 15" =
          Run.panic := by
  decide

theorem parse_no_colon (pfx line : String) (h : ':' ∉ line.data) :
    network_parse_iface_line pfx line = Run.done { serie := none, err := none } := by
  simp [network_parse_iface_line, goSplit_no_sep _ _ h]

theorem scanLoop_append (pfx : String) (pre rest : List String) :
    ∀ acc, scanLoop pfx (pre ++ rest) acc =
      match scanLoop pfx pre acc with
      | Run.panic => Run.panic
      | Run.done series => scanLoop pfx rest series := by
  induction pre with
  | nil => intro acc; rfl
  | cons line pre ih =>
    intro acc
    simp only [List.cons_append, scanLoop]
    cases network_parse_iface_line pfx line with
    | panic => rfl
    | done r =>
      obtain ⟨serie, err⟩ := r
      cases err <;> cases serie <;> simp only [] <;> exact ih _

theorem scanLoop_skip (pfx line : String) (h : ':' ∉ line.data) (pre post : List String)
    (acc : List Series) :
    scanLoop pfx (pre ++ line :: post) acc = scanLoop pfx (pre ++ post) acc := by
  rw [scanLoop_append, scanLoop_append]
  cases scanLoop pfx pre acc with
  | panic => rfl
  | done series => simp [scanLoop, parse_no_colon pfx line h]

/-- C10: a line without colon makes the parser return neither a Series nor
an error (and no panic), and `network` gives the same result as if the line
were not in the source: the lines before and after it are processed as
usual. -/
theorem parse_colonless_line (pfx line : String) (h : ':' ∉ line.data) :
    network_parse_iface_line pfx line = Run.done { serie := none, err := none }
      ∧ ∀ (os : OS) (pre post : List String) (e : Option Error),
          os.openNetDev = Except.ok { lines := pre ++ line :: post, scanErr := e } →
          network os pfx =
            network { os with openNetDev := Except.ok { lines := pre ++ post, scanErr := e } }
              pfx := by
  refine ⟨parse_no_colon pfx line h, ?_⟩
  intro os pre post e hos
  simp only [network, hos, scanLoop_skip pfx line h]

/-- C10, on the sample host: its first header line has no colon, the run
with it equals the run without it, and the interfaces after it are found. -/
theorem parse_colonless_line_witness :
    network_parse_iface_line "" "Inter-|   Receive                |  Transmit" =
        Run.done { serie := none, err := none }
      ∧ network sampleOS "" = Run.done (Except.ok [sampleLo, sampleEth0]) := by
  have h := parse_colonless_line "" "Inter-|   Receive                |  Transmit" (by decide)
  refine ⟨h.1, ?_⟩
  rw [h.2 sampleOS [] _ none rfl]
  decide

/-- C4, as stated, fails: on this line the text after the first colon is
` 1 2 ... 15 1:6`, whose 16th token `1:6` is no integer (value `0`), while
the parser stops the data part at the second colon and stores `1`. -/
theorem parse_first_colon_counterexample :
    cutFirst ':' "eth0: 1 2 3 4 5 6 7 8 9 10 11 12 13 14 15 1:6".data =
        some ("eth0".data, " 1 2 3 4 5 6 7 8 9 10 11 12 13 14 15 1:6".data)
      ∧ parseFirstColon "" "eth0: 1 2 3 4 5 6 7 8 9 10 11 12 13 14 15 1:6" =
          Run.done { serie := some { Name := "eth0", Columns := ifaceColumns,
                                     Points := [[1, 2, 3, 4, 5, 6, 7, 8, 9, 10, 11, 12, 13, 14,
                                       15, 0].map Value.int] },
                     err := none }
      ∧ network_parse_iface_line "" "eth0: 1 2 3 4 5 6 7 8 9 10 11 12 13 14 15 1:6" =
          Run.done { serie := some { Name := "eth0", Columns := ifaceColumns,
                                     Points := [[1, 2, 3, 4, 5, 6, 7, 8, 9, 10, 11, 12, 13, 14,
                                       15, 1].map Value.int] },
                     err := none }
      ∧ network_parse_iface_line "" "eth0: 1 2 3 4 5 6 7 8 9 10 11 12 13 14 15 1:6" ≠
          parseFirstColon "" "eth0: 1 2 3 4 5 6 7 8 9 10 11 12 13 14 15 1:6" := by
  decide

theorem not_mem_takeWhile_ne (sep : Char) (l : List Char) :
    sep ∉ l.takeWhile (fun c => c != sep) := by
  intro h
  have := List.mem_takeWhile_imp h
  simp at this

theorem split_at_first (sep : Char) (l : List Char) (h : sep ∈ l) :
    l = l.takeWhile (fun c => c != sep) ++
      sep :: (l.dropWhile (fun c => c != sep)).drop 1 := by
  induction l with
  | nil => simp at h
  | cons c cs ih =>
    by_cases hc : c = sep
    · subst hc
      simp [List.takeWhile_cons, List.dropWhile_cons]
    · have hcs : sep ∈ cs := by
        rcases List.mem_cons.mp h with h1 | h1
        · exact absurd h1.symm hc
        · exact h1
      have := ih hcs
      simp only [List.takeWhile_cons, List.dropWhile_cons, bne_iff_ne, ne_eq, hc,
        not_false_eq_true, decide_True, if_true, List.cons_append, List.cons.injEq, true_and]
      exact this

theorem takeWhile_ne_append (sep : Char) (a b : List Char) (h : sep ∉ a) :
    (a ++ sep :: b).takeWhile (fun c => c != sep) = a
      ∧ (a ++ sep :: b).dropWhile (fun c => c != sep) = sep :: b := by
  induction a with
  | nil => simp [List.takeWhile_cons, List.dropWhile_cons]
  | cons c cs ih =>
    have hc : c ≠ sep := fun e => h (by simp [e])
    have hcs : sep ∉ cs := fun e => h (by simp [e])
    simp [List.takeWhile_cons, List.dropWhile_cons, hc, ih hcs]

theorem takeWhile_ne_all (sep : Char) (a : List Char) (h : sep ∉ a) :
    a.takeWhile (fun c => c != sep) = a := by
  induction a with
  | nil => rfl
  | cons c cs ih =>
    have hc : c ≠ sep := fun e => h (by simp [e])
    have hcs : sep ∉ cs := fun e => h (by simp [e])
    simp [List.takeWhile_cons, hc, ih hcs]

theorem goSplit_parts (line : String) (h : ':' ∈ line.data) :
    ∃ rest, goSplit ':' line.data = labelPart line :: dataPart line :: rest := by
  have hl := split_at_first ':' line.data h
  have hhead := goSplit_head ':' ((line.data.dropWhile (fun c => c != ':')).drop 1)
  cases hg : goSplit ':' ((line.data.dropWhile (fun c => c != ':')).drop 1) with
  | nil => exact absurd hg (goSplit_ne_nil _ _)
  | cons piece pieces =>
    rw [hg] at hhead
    simp only [List.head?_cons, Option.some.injEq] at hhead
    refine ⟨pieces, ?_⟩
    have h2 := goSplit_append ':' (line.data.takeWhile (fun c => c != ':'))
      ((line.data.dropWhile (fun c => c != ':')).drop 1) (not_mem_takeWhile_ne ':' line.data)
    rw [← hl, hg, hhead] at h2
    exact h2

/-- C4, amended: on every line with at least one colon the parser splits on
every colon.  The label part is the text before the first colon and the data
part is the text between the first colon and the second one (the whole
remainder when there is no second colon); what follows a second colon is
ignored: the result is that of the line cut before its second colon.  The
row of a returned Series holds the values of the first 16 tokens of that data
part alone, and with at least 16 tokens there the parser returns. -/
theorem parse_splits_every_colon (pfx line : String) (h : ':' ∈ line.data) :
    network_parse_iface_line pfx line =
        parseIfaceParts (addDot pfx) (labelPart line) (dataPart line)
      ∧ network_parse_iface_line pfx line =
        network_parse_iface_line pfx (String.mk (labelPart line ++ ':' :: dataPart line))
      ∧ (∀ s e, network_parse_iface_line pfx line = Run.done { serie := some s, err := e } →
          s.Name = specName pfx (ifaceName line) ∧
          s.Points = [((goFields (dataPart line)).take 16).map tokenValue])
      ∧ (16 ≤ (goFields (dataPart line)).length →
          network_parse_iface_line pfx line =
            Run.done { serie := some { Name := specName pfx (ifaceName line),
                                       Columns := ifaceColumns,
                                       Points := [((goFields (dataPart line)).take 16).map
                                         tokenValue] },
                       err := none })
      ∧ (∀ label data rest : List Char, ':' ∉ label → ':' ∉ data →
          line.data = label ++ ':' :: (data ++ ':' :: rest) →
          labelPart line = label ∧ dataPart line = data)
      ∧ (∀ label data : List Char, ':' ∉ label → ':' ∉ data →
          line.data = label ++ ':' :: data →
          labelPart line = label ∧ dataPart line = data) := by
  obtain ⟨rest, hsplit⟩ := goSplit_parts line h
  have h1 : network_parse_iface_line pfx line =
      parseIfaceParts (addDot pfx) (labelPart line) (dataPart line) :=
    parse_of_split pfx line _ _ _ hsplit
  have hok : 16 ≤ (goFields (dataPart line)).length →
      network_parse_iface_line pfx line =
        Run.done { serie := some { Name := specName pfx (ifaceName line),
                                   Columns := ifaceColumns,
                                   Points := [((goFields (dataPart line)).take 16).map
                                     tokenValue] },
                   err := none } := by
    intro htok
    rw [h1, parseIfaceParts_ok _ _ _ htok, specName_eq]
    rfl
  refine ⟨h1, ?_, ?_, hok, ?_, ?_⟩
  · have hcut : goSplit ':' (String.mk (labelPart line ++ ':' :: dataPart line)).data =
        [labelPart line, dataPart line] := by
      have hA : ':' ∉ labelPart line := not_mem_takeWhile_ne ':' line.data
      have hB : ':' ∉ dataPart line := not_mem_takeWhile_ne ':' _
      show goSplit ':' (labelPart line ++ ':' :: dataPart line) = _
      rw [goSplit_append ':' (labelPart line) (dataPart line) hA,
        goSplit_no_sep ':' (dataPart line) hB]
    rw [h1, parse_of_split pfx _ _ _ _ hcut]
  · intro s e hs
    by_cases htok : 16 ≤ (goFields (dataPart line)).length
    · rw [hok htok] at hs
      simp only [Run.done.injEq, ParseRet.mk.injEq, Option.some.injEq] at hs
      rw [← hs.1]
      exact ⟨rfl, rfl⟩
    · rw [h1, parseIfaceParts_panic _ _ _ (by omega)] at hs
      exact absurd hs (by simp)
  · intro label data rest hlabel hdata hline
    have t1 := takeWhile_ne_append ':' label (data ++ ':' :: rest) hlabel
    have t2 := takeWhile_ne_append ':' data rest hdata
    unfold labelPart dataPart
    rw [hline, t1.1, t1.2]
    exact ⟨rfl, by simpa using t2.1⟩
  · intro label data hlabel hdata hline
    have t1 := takeWhile_ne_append ':' label data hlabel
    unfold labelPart dataPart
    rw [hline, t1.1, t1.2]
    exact ⟨rfl, by simpa using takeWhile_ne_all ':' data hdata⟩

/-- C4, amended, on two lines with a second colon.  On the first the 16th
token of the data part is `7`, cut from `7:5` (the text after the first
colon would give `0` there); the second, with a colon inside its first
token, gives what the line `eth0: 1` gives. -/
theorem parse_splits_every_colon_witness :
    network_parse_iface_line "host01" "eth0: 100 2 0 0 0 0 0 0 200 3 0 0 0 0 0 7:5 9" =
        Run.done { serie := some { Name := "host01.eth0", Columns := ifaceColumns,
                                   Points := [[100, 2, 0, 0, 0, 0, 0, 0, 200, 3, 0, 0, 0, 0, 0,
                                     7].map Value.int] },
                   err := none }
      ∧ parseFirstColon "host01" "eth0: 100 2 0 0 0 0 0 0 200 3 0 0 0 0 0 7:5 9" =
        Run.done { serie := some { Name := "host01.eth0", Columns := ifaceColumns,
                                   Points := [[100, 2, 0, 0, 0, 0, 0, 0, 200, 3, 0, 0, 0, 0, 0,
                                     0].map Value.int] },
                   err := none }
      ∧ network_parse_iface_line "" "eth0: 1:2 3 4 5 6 7 8 9 10 11 12 13 14 15 16 17" =
        network_parse_iface_line "" "eth0: 1" :=
  ⟨(parse_splits_every_colon "host01" "eth0: 100 2 0 0 0 0 0 0 200 3 0 0 0 0 0 7:5 9"
      (by decide)).2.2.2.1 (by decide),
   by decide,
   (parse_splits_every_colon "" "eth0: 1:2 3 4 5 6 7 8 9 10 11 12 13 14 15 16 17"
      (by decide)).2.1⟩

/-! ## The reporter -/

theorem send_write_result_dropped (db : Influx) (fmtV : Value → String)
    (cfg : ClientConfig) (client : Client) (series : List Series)
    (h : db.newClient cfg = Except.ok client) :
    send db fmtV false (some cfg) series =
      Run.done { stdout := "", writes := [(series, db.writeSeries client series)],
                 ret := none } := by
  simp [send, h]

theorem send_client_error (db : Influx) (fmtV : Value → String)
    (cfg : ClientConfig) (err : Error) (series : List Series)
    (h : db.newClient cfg = Except.error err) :
    send db fmtV false (some cfg) series =
      Run.done { stdout := "", writes := [], ret := some err } := by
  simp [send, h]

/-- C3: with a sink whose client is created and whose batch write is
rejected, `send` calls `WriteSeries` once, gets the error `write rejected`
back and returns nil: the failure of the write does not reach the caller
(the failure to create the client, on the other sink, does). -/
theorem send_loses_write_error :
    send rejectingSink sampleFmt false (some sampleConfig) [sampleEth0] =
        Run.done { stdout := "",
                   writes := [([sampleEth0], some { msg := "write rejected" })],
                   ret := none }
      ∧ send unreachableSink sampleFmt false (some sampleConfig) [sampleEth0] =
        Run.done { stdout := "", writes := [], ret := some { msg := "connection refused" } } := by
  decide

/-! ## The collectors -/

/-- C5: when the aggregate CPU query succeeds and the per-CPU list query
fails, `cpus` returns a Series (the aggregate row alone) and no error; when
the counter source opens and reading it fails after the first interface,
`network` returns the Series read so far and no error. -/
theorem collectors_hide_late_failures :
    cpuListFailsOS.cpuListGet.2 = some { msg := "open /proc/stat: permission denied" }
      ∧ cpus cpuListFailsOS "" =
        Except.ok { Name := "cpu",
                    Columns := ["id", "user", "nice", "sys", "idle", "wait", "total"],
                    Points := [[Value.str "cpu", Value.uint 10, Value.uint 1, Value.uint 5,
                                Value.uint 80, Value.uint 4, Value.uint 100]] }
      ∧ (∃ fi, netReadFailsOS.openNetDev = Except.ok fi ∧
          fi.scanErr = some { msg := "read /proc/net/dev: input/output error" })
      ∧ network netReadFailsOS "" = Run.done (Except.ok [sampleLo]) := by
  refine ⟨rfl, by decide, ⟨_, rfl, rfl⟩, by decide⟩

theorem collector_errors (os : OS) (pfx : String) (err : Error) :
    (os.cpuGet = Except.error err → cpus os pfx = Except.error err)
      ∧ (os.memGet = Except.error err → mem os pfx = Except.error err)
      ∧ (os.swapGet = Except.error err → swap os pfx = Except.error err)
      ∧ (os.uptimeGet = Except.error err → uptime os pfx = Except.error err)
      ∧ (os.loadGet = Except.error err → load os pfx = Except.error err)
      ∧ (os.openNetDev = Except.error err →
          network os pfx = Run.done (Except.error err)) := by
  refine ⟨?_, ?_, ?_, ?_, ?_, ?_⟩ <;> intro h
  · simp [cpus, h]
  · simp [mem, h]
  · simp [swap, h]
  · simp [uptime, h]
  · simp [load, h]
  · simp [network, h]

/-! ## The Series invariant -/

theorem parsePoints_length (tmp : List (List Char)) :
    ∀ (k i : Nat) (acc points : List Value),
      parsePoints tmp k i acc = Run.done points → points.length = acc.length + k := by
  intro k
  induction k with
  | zero =>
    intro i acc points h
    simp only [parsePoints, Run.done.injEq] at h
    simp [← h]
  | succ k ih =>
    intro i acc points h
    unfold parsePoints at h
    cases hi : tmp[i]? with
    | none => simp [hi] at h
    | some tok =>
      simp only [hi] at h
      cases hat : atoi tok with
      | none =>
        simp only [hat] at h
        have := ih _ _ _ h
        simp at this
        omega
      | some v =>
        simp only [hat] at h
        have := ih _ _ _ h
        simp at this
        omega

theorem parseIfaceParts_wellFormed (pfx : String) (label data : List Char) (r : ParseRet)
    (s : Series) (h : parseIfaceParts pfx label data = Run.done r) (hs : r.serie = some s) :
    s.WellFormed := by
  unfold parseIfaceParts at h
  simp only [] at h
  cases hp : parsePoints (goFields data) ifaceColumns.length 0 [] with
  | panic => simp [hp] at h
  | done points =>
    simp only [hp, Run.done.injEq] at h
    have hlen := parsePoints_length _ _ _ _ _ hp
    subst h
    simp only [Option.some.injEq] at hs
    subst hs
    intro row hrow
    simp only [List.nil_append, List.mem_singleton] at hrow
    subst hrow
    simpa using hlen

theorem parse_wellFormed (pfx line : String) (r : ParseRet) (s : Series)
    (h : network_parse_iface_line pfx line = Run.done r) (hs : r.serie = some s) :
    s.WellFormed := by
  unfold network_parse_iface_line at h
  simp only [] at h
  split at h
  · exact parseIfaceParts_wellFormed _ _ _ _ _ h hs
  · simp only [Run.done.injEq] at h
    subst h
    simp at hs

theorem lineSeries_wellFormed (pfx line : String) (s : Series) (h : s ∈ lineSeries pfx line) :
    s.WellFormed := by
  unfold lineSeries at h
  split at h
  · next u heq =>
    simp only [List.mem_singleton] at h
    subst h
    exact parse_wellFormed pfx line _ _ heq rfl
  · simp at h

theorem scanLoop_eq (pfx : String) (lines : List String) :
    ∀ (acc series : List Series), scanLoop pfx lines acc = Run.done series →
      series = acc ++ lines.flatMap (lineSeries pfx) := by
  induction lines with
  | nil =>
    intro acc series h
    simp only [scanLoop, Run.done.injEq] at h
    simp [h]
  | cons line rest ih =>
    intro acc series h
    unfold scanLoop at h
    cases hp : network_parse_iface_line pfx line with
    | panic => simp [hp] at h
    | done r =>
      obtain ⟨serie, err⟩ := r
      simp only [hp] at h
      cases err with
      | some e =>
        cases serie <;> simp only [] at h <;>
          simp [ih _ _ h, lineSeries, hp]
      | none =>
        cases serie with
        | none =>
          simp only [] at h
          simp [ih _ _ h, lineSeries, hp]
        | some u =>
          simp only [] at h
          simp [ih _ _ h, lineSeries, hp]

theorem network_eq (os : OS) (pfx : String) (fi : NetDev) (r : Except Error (List Series))
    (hos : os.openNetDev = Except.ok fi) (h : network os pfx = Run.done r) :
    r = Except.ok (fi.lines.flatMap (lineSeries pfx)) := by
  unfold network at h
  simp only [hos] at h
  cases hl : scanLoop pfx fi.lines [] with
  | panic => simp [hl] at h
  | done series =>
    simp only [hl, Run.done.injEq] at h
    rw [← h, scanLoop_eq pfx _ _ _ hl]
    simp

theorem network_wellFormed (os : OS) (pfx : String) (l : List Series)
    (h : network os pfx = Run.done (Except.ok l)) : ∀ s ∈ l, s.WellFormed := by
  cases hos : os.openNetDev with
  | error err => simp [network, hos] at h
  | ok fi =>
    have := network_eq os pfx fi _ hos h
    simp only [Except.ok.injEq] at this
    subst this
    intro s hs
    simp only [List.mem_flatMap] at hs
    obtain ⟨line, _, hline⟩ := hs
    exact lineSeries_wellFormed pfx line s hline

theorem cpusLoop_rows (os : OS) (l : List Cpu) :
    ∀ (i : Nat) (points : List (List Value)), (∀ row ∈ points, row.length = 7) →
      ∀ row ∈ cpusLoop os l i points, row.length = 7 := by
  induction l with
  | nil => intro i points h; simpa [cpusLoop] using h
  | cons cpu rest ih =>
    intro i points h
    unfold cpusLoop
    apply ih
    intro row hrow
    simp only [List.mem_append, List.mem_singleton] at hrow
    rcases hrow with hrow | hrow
    · exact h row hrow
    · subst hrow
      rfl

theorem cpus_wellFormed (os : OS) (pfx : String) (s : Series)
    (h : cpus os pfx = Except.ok s) : s.WellFormed := by
  unfold cpus at h
  simp only [] at h
  split at h
  · simp at h
  · simp only [Except.ok.injEq] at h
    subst h
    intro row hrow
    simp only [List.nil_append] at hrow
    have := cpusLoop_rows os _ 0 _ (by
      intro r hr
      simp only [List.mem_singleton] at hr
      subst hr
      rfl) row hrow
    simpa using this

theorem mem_wellFormed (os : OS) (pfx : String) (s : Series)
    (h : mem os pfx = Except.ok s) : s.WellFormed := by
  unfold mem at h
  simp only [] at h
  split at h
  · simp at h
  · simp only [Except.ok.injEq] at h
    subst h
    intro row hrow
    simp only [List.nil_append, List.mem_singleton] at hrow
    subst hrow
    rfl

theorem swap_wellFormed (os : OS) (pfx : String) (s : Series)
    (h : swap os pfx = Except.ok s) : s.WellFormed := by
  unfold swap at h
  simp only [] at h
  split at h
  · simp at h
  · simp only [Except.ok.injEq] at h
    subst h
    intro row hrow
    simp only [List.nil_append, List.mem_singleton] at hrow
    subst hrow
    rfl

theorem uptime_wellFormed (os : OS) (pfx : String) (s : Series)
    (h : uptime os pfx = Except.ok s) : s.WellFormed := by
  unfold uptime at h
  simp only [] at h
  split at h
  · simp at h
  · simp only [Except.ok.injEq] at h
    subst h
    intro row hrow
    simp only [List.nil_append, List.mem_singleton] at hrow
    subst hrow
    rfl

theorem load_wellFormed (os : OS) (pfx : String) (s : Series)
    (h : load os pfx = Except.ok s) : s.WellFormed := by
  unfold load at h
  simp only [] at h
  split at h
  · simp at h
  · simp only [Except.ok.injEq] at h
    subst h
    intro row hrow
    simp only [List.nil_append, List.mem_singleton] at hrow
    subst hrow
    rfl

/-! ## The text view -/

theorem join_cons (a : String) (l : List String) :
    String.join (a :: l) = a ++ String.join l := by
  apply String.ext
  simp [String.data_join, String.data_append]

theorem join_nil : String.join [] = "" := rfl

theorem printColumns_eq (cols : List String) :
    ∀ out, printColumns cols out =
      out ++ String.join (cols.map (fun col => "| " ++ col ++ "\t")) := by
  induction cols with
  | nil => intro out; simp [printColumns, join_nil]
  | cons col cols ih =>
    intro out
    simp only [printColumns, ih, List.map_cons, join_cons, String.append_assoc]

theorem printCells_ok (fmtV : Value → String) (value : List Value) :
    ∀ (k i : Nat) (out : String), i + k ≤ value.length →
      printCells fmtV value k i out =
        Run.done (out ++
          String.join (((value.drop i).take k).map (fun v => fmtV v ++ "\t| "))) := by
  intro k
  induction k with
  | zero => intro i out _; simp [printCells, join_nil]
  | succ k ih =>
    intro i out h
    have hi : i < value.length := by omega
    have hd : value.drop i = value[i] :: value.drop (i + 1) :=
      List.drop_eq_getElem_cons hi
    unfold printCells
    rw [List.getElem?_eq_getElem hi]
    simp only []
    rw [ih (i + 1) _ (by omega), hd, List.take_succ_cons, List.map_cons, join_cons]
    simp only [String.append_assoc]

theorem printCells_panic (fmtV : Value → String) (value : List Value) :
    ∀ (k i : Nat) (out : String), i ≤ value.length → value.length < i + k →
      printCells fmtV value k i out = Run.panic := by
  intro k
  induction k with
  | zero => intro i out h1 h2; omega
  | succ k ih =>
    intro i out h1 h2
    unfold printCells
    by_cases hi : i < value.length
    · rw [List.getElem?_eq_getElem hi]
      exact ih (i + 1) _ (by omega) (by omega)
    · rw [List.getElem?_eq_none (by omega)]

theorem printPoints_ok (fmtV : Value → String) (nbCols : Nat) (rows : List (List Value)) :
    ∀ (out : String), (∀ row ∈ rows, row.length = nbCols) →
      printPoints fmtV nbCols rows out =
        Run.done (out ++ String.join (rows.map (fun row =>
          "| " ++ String.join (row.map (fun v => fmtV v ++ "\t| ")) ++ "\n"))) := by
  induction rows with
  | nil => intro out _; simp [printPoints, join_nil]
  | cons row rows ih =>
    intro out h
    have hrow : row.length = nbCols := h row (by simp)
    have hrest : ∀ r ∈ rows, r.length = nbCols := fun r hr => h r (by simp [hr])
    unfold printPoints
    rw [printCells_ok fmtV row nbCols 0 _ (by omega)]
    simp only []
    rw [ih _ hrest, List.map_cons, join_cons, List.drop_zero, ← hrow, List.take_length]
    simp only [String.append_assoc]

theorem printSeries_ok (fmtV : Value → String) (series : List Series) :
    ∀ (ks : Nat) (out : String), (∀ s ∈ series, s.WellFormed) →
      printSeries fmtV series ks out = Run.done (out ++ renderAll fmtV ks series) := by
  induction series with
  | nil => intro ks out _; simp [printSeries, renderAll, join_nil]
  | cons s rest ih =>
    intro ks out h
    have hs : ∀ row ∈ s.Points, row.length = s.Columns.length := h s (by simp)
    have hrest : ∀ t ∈ rest, t.WellFormed := fun t ht => h t (by simp [ht])
    unfold printSeries
    simp only []
    rw [printPoints_ok fmtV _ _ _ hs]
    simp only []
    rw [ih _ _ hrest, printColumns_eq]
    simp only [renderAll, List.enumFrom_cons, List.map_cons, join_cons, renderSeries,
      String.append_assoc]

theorem appendAll_eq (u : List Series) : ∀ data, appendAll u data = data ++ u := by
  induction u with
  | nil => intro data; simp [appendAll]
  | cons v rest ih => intro data; simp [appendAll, ih]

theorem collect_eq (os : OS) (pfx : String) (r : Except Error (List Series))
    (h : network os pfx = Run.done r) :
    collect os pfx = Run.done (collected os pfx r, reported os pfx r) := by
  unfold collect collected reported
  simp only [h]
  cases r <;> cases cpus os pfx <;> cases mem os pfx <;> cases swap os pfx <;>
    cases uptime os pfx <;> cases load os pfx <;>
    simp [collectOne, successes, failures, flattened, appendAll_eq]

/-- C6: every Series returned by a collector (`cpus`, `mem`, `swap`,
`uptime`, `load`, the line parser, every Series of `network`) has rows with
exactly as many values as it has columns; so has every Series of the list
`main` hands to `send`, and on that list the pretty printer, which reads
`value[i]` for every `i < len(columns)`, never reads out of bounds: it
completes. -/
theorem collector_series_wellFormed (os : OS) (pfx : String) :
    (∀ s, cpus os pfx = Except.ok s → s.WellFormed)
      ∧ (∀ s, mem os pfx = Except.ok s → s.WellFormed)
      ∧ (∀ s, swap os pfx = Except.ok s → s.WellFormed)
      ∧ (∀ s, uptime os pfx = Except.ok s → s.WellFormed)
      ∧ (∀ s, load os pfx = Except.ok s → s.WellFormed)
      ∧ (∀ line s e, network_parse_iface_line pfx line =
            Run.done { serie := some s, err := e } → s.WellFormed)
      ∧ (∀ l, network os pfx = Run.done (Except.ok l) → ∀ s ∈ l, s.WellFormed)
      ∧ (∀ data errs, collect os pfx = Run.done (data, errs) →
          (∀ s ∈ data, s.WellFormed) ∧
          ∀ (fmtV : Value → String) (ks : Nat) (out : String),
            printSeries fmtV data ks out = Run.done (out ++ renderAll fmtV ks data)) := by
  refine ⟨cpus_wellFormed os pfx, mem_wellFormed os pfx, swap_wellFormed os pfx,
    uptime_wellFormed os pfx, load_wellFormed os pfx,
    fun line s e h => parse_wellFormed pfx line _ s h rfl,
    network_wellFormed os pfx, ?_⟩
  intro data errs h
  have hwf : ∀ s ∈ data, s.WellFormed := by
    cases hn : network os pfx with
    | panic => simp [collect, hn] at h
    | done r =>
      rw [collect_eq os pfx r hn] at h
      simp only [Run.done.injEq, Prod.mk.injEq] at h
      rw [← h.1]
      intro s hs
      simp only [collected, List.mem_append] at hs
      have one : ∀ (c : Except Error Series), (∀ t, c = Except.ok t → t.WellFormed) →
          s ∈ successes c → s.WellFormed := by
        intro c hc hmem
        cases c with
        | error e => simp [successes] at hmem
        | ok t =>
          simp only [successes, List.mem_singleton] at hmem
          exact hmem ▸ hc t rfl
      rcases hs with ((((hs | hs) | hs) | hs) | hs) | hs
      · exact one _ (cpus_wellFormed os pfx) hs
      · exact one _ (mem_wellFormed os pfx) hs
      · exact one _ (swap_wellFormed os pfx) hs
      · exact one _ (uptime_wellFormed os pfx) hs
      · exact one _ (load_wellFormed os pfx) hs
      · cases r with
        | error e => simp [flattened] at hs
        | ok l => exact network_wellFormed os pfx l hn s hs
  exact ⟨hwf, fun fmtV ks out => printSeries_ok fmtV data ks out hwf⟩

/-- C6, on the sample host: `cpus` returns a Series with two rows of seven
values under seven columns, and the Series is well formed. -/
theorem collector_series_wellFormed_witness :
    ∃ s, cpus sampleOS "host01" = Except.ok s ∧ s.Columns.length = 7 ∧
      s.Points.map List.length = [7, 7] ∧ s.WellFormed :=
  ⟨_, rfl, rfl, rfl, (collector_series_wellFormed sampleOS "host01").1 _ rfl⟩

/-- C7, as stated, fails when the sink is configured and its client cannot
be created: `send` returns the error of `NewClient` before it reaches
`WriteSeries`, so no batch write is issued.  It also fails, without sink, on
a Series with a row shorter than its columns: the pretty printer reads
`value[1]` out of bounds and panics. -/
theorem send_one_write_counterexample :
    send unreachableSink sampleFmt false (some sampleConfig) [sampleLo, sampleEth0] =
        Run.done { stdout := "", writes := [], ret := some { msg := "connection refused" } }
      ∧ send acceptingSink sampleFmt false none [shortRowSeries] = Run.panic := by
  decide

/-- C7, amended: on a list of well-formed Series and without sink, `send`
writes the text view of every Series (header with all column names in
order, every row with every value in column order, Series in list order)
whatever the verbose flag is, and issues no write.  With a sink and verbose
off it writes no text, whatever the Series are; if the client is created it
issues exactly one batch write, of the whole list, and if the client cannot
be created it issues none and returns that error.  The driver configures a
sink exactly when the database name is not empty. -/
theorem send_behaviour (db : Influx) (fmtV : Value → String) (series : List Series) :
    (∀ verbose : Bool, (∀ s ∈ series, s.WellFormed) →
        send db fmtV verbose none series =
          Run.done { stdout := renderAll fmtV 0 series, writes := [], ret := none })
      ∧ (∀ cfg client, db.newClient cfg = Except.ok client →
          send db fmtV false (some cfg) series =
            Run.done { stdout := "", writes := [(series, db.writeSeries client series)],
                       ret := none })
      ∧ (∀ cfg err, db.newClient cfg = Except.error err →
          send db fmtV false (some cfg) series =
            Run.done { stdout := "", writes := [], ret := some err })
      ∧ (∀ flags : Flags, mkConfig flags = none ↔ flags.databaseFlag = "") := by
  refine ⟨?_, ?_, ?_, ?_⟩
  · intro verbose hwf
    simp [send, printSeries_ok fmtV series 0 "" hwf]
  · intro cfg client h
    exact send_write_result_dropped db fmtV cfg client series h
  · intro cfg err h
    exact send_client_error db fmtV cfg err series h
  · intro flags
    unfold mkConfig
    by_cases h : flags.databaseFlag = "" <;> simp [h]

/-- C7, amended, on the Series of `eth0`: the text view without sink, and
one batch write of the whole list with an accepting sink. -/
theorem send_behaviour_witness :
    send acceptingSink sampleFmt false none [sampleEth0] =
        Run.done { stdout := renderAll sampleFmt 0 [sampleEth0], writes := [], ret := none }
      ∧ send acceptingSink sampleFmt false (some sampleConfig) [sampleEth0] =
        Run.done { stdout := "", writes := [([sampleEth0], none)], ret := none } :=
  ⟨(send_behaviour acceptingSink sampleFmt [sampleEth0]).1 false (by decide),
   (send_behaviour acceptingSink sampleFmt [sampleEth0]).2.1 sampleConfig { handle := 0 } rfl⟩

/-! ## The driver -/

/-- C8: whenever the collectors return (the network collector may also
panic, and then nothing is handed to `send`), the list `main` hands to
`send` is the concatenation, in the order CPU, memory, swap, uptime, load,
network, of the Series of the collectors that succeeded; the Series of
`network` are those of its lines, in the order the lines were read; a
failing collector adds nothing to the list (its error goes to the error
stream) and the Series of the others stay in place.  With a sink whose
client is created and verbose off, that list is the argument of the one
batch write of the run. -/
theorem collect_concat (os : OS) (pfx : String) (r : Except Error (List Series))
    (h : network os pfx = Run.done r) :
    collect os pfx =
        Run.done
          (successes (cpus os pfx) ++ successes (mem os pfx) ++ successes (swap os pfx) ++
             successes (uptime os pfx) ++ successes (load os pfx) ++ flattened r,
           failures (cpus os pfx) ++ failures (mem os pfx) ++ failures (swap os pfx) ++
             failures (uptime os pfx) ++ failures (load os pfx) ++ failures r)
      ∧ (∀ fi, os.openNetDev = Except.ok fi →
          flattened r = fi.lines.flatMap (lineSeries pfx))
      ∧ (∀ err, os.openNetDev = Except.error err → flattened r = [])
      ∧ (∀ (db : Influx) (fmtV : Value → String) (flags : Flags) (cfg : ClientConfig)
            (client : Client),
          flags.versionFlag = false → flags.verboseFlag = false → flags.prefixFlag = pfx →
          mkConfig flags = some cfg → db.newClient cfg = Except.ok client →
          main os db fmtV flags =
            Run.done
              { stdout := "",
                stderr := reported os pfx r,
                writes := [(collected os pfx r,
                            db.writeSeries client (collected os pfx r))] }) := by
  refine ⟨collect_eq os pfx r h, ?_, ?_, ?_⟩
  · intro fi hos
    rw [network_eq os pfx fi r hos h]
    rfl
  · intro err hos
    simp only [network, hos, Run.done.injEq] at h
    rw [← h]
    rfl
  · intro db fmtV flags cfg client hversion hverbose hpfx hcfg hclient
    unfold main
    simp only [hversion, hpfx, collect_eq os pfx r h, hcfg, hverbose,
      send_write_result_dropped db fmtV cfg client _ hclient]
    simp

/-- C8, on the sample host with failing memory and load queries: the list
holds the Series of cpu, swap, uptime and of the two interfaces, in that
order, and the two errors are reported. -/
theorem collect_concat_witness :
    ∃ c s u, cpus memLoadFailOS "" = Except.ok c ∧ swap memLoadFailOS "" = Except.ok s ∧
      uptime memLoadFailOS "" = Except.ok u ∧
      collect memLoadFailOS "" =
        Run.done ([c, s, u, sampleLo, sampleEth0],
                  [{ msg := "mem unavailable" }, { msg := "load unavailable" }]) :=
  ⟨_, _, _, rfl, rfl, rfl,
    (collect_concat memLoadFailOS "" (Except.ok [sampleLo, sampleEth0]) (by decide)).1⟩

/-! ## Series names -/

/-- C9: the Series of `cpus`, `mem`, `swap`, `uptime` and `load` are named
`cpu`, `mem`, `swap`, `uptime` and `load`, and the Series of a line is named
by its interface name; the name is the base name alone for an empty prefix
and the prefix, a dot and the base name otherwise. -/
theorem series_name_rule (os : OS) (pfx : String) :
    (∀ base, specName "" base = base)
      ∧ (∀ base, pfx ≠ "" → specName pfx base = pfx ++ "." ++ base)
      ∧ (∀ s, cpus os pfx = Except.ok s → s.Name = specName pfx "cpu")
      ∧ (∀ s, mem os pfx = Except.ok s → s.Name = specName pfx "mem")
      ∧ (∀ s, swap os pfx = Except.ok s → s.Name = specName pfx "swap")
      ∧ (∀ s, uptime os pfx = Except.ok s → s.Name = specName pfx "uptime")
      ∧ (∀ s, load os pfx = Except.ok s → s.Name = specName pfx "load")
      ∧ (∀ line s e, network_parse_iface_line pfx line =
            Run.done { serie := some s, err := e } →
          s.Name = specName pfx (ifaceName line)) := by
  refine ⟨fun base => rfl, fun base h => by simp [specName, h], ?_, ?_, ?_, ?_, ?_, ?_⟩
  · intro s h
    unfold cpus at h
    simp only [] at h
    split at h
    · simp at h
    · simp only [Except.ok.injEq] at h
      rw [← h, ← specName_eq]
  · intro s h
    unfold mem at h
    simp only [] at h
    split at h
    · simp at h
    · simp only [Except.ok.injEq] at h
      rw [← h, ← specName_eq]
  · intro s h
    unfold swap at h
    simp only [] at h
    split at h
    · simp at h
    · simp only [Except.ok.injEq] at h
      rw [← h, ← specName_eq]
  · intro s h
    unfold uptime at h
    simp only [] at h
    split at h
    · simp at h
    · simp only [Except.ok.injEq] at h
      rw [← h, ← specName_eq]
  · intro s h
    unfold load at h
    simp only [] at h
    split at h
    · simp at h
    · simp only [Except.ok.injEq] at h
      rw [← h, ← specName_eq]
  · intro line s e h
    unfold network_parse_iface_line at h
    simp only [] at h
    split at h
    · next label data rest hsplit =>
      have hhead := goSplit_head ':' line.data
      rw [hsplit] at hhead
      simp only [List.head?_cons, Option.some.injEq] at hhead
      unfold parseIfaceParts at h
      simp only [] at h
      split at h
      · simp at h
      · simp only [Run.done.injEq, ParseRet.mk.injEq, Option.some.injEq] at h
        rw [← h.1, ← specName_eq, ifaceName, hhead]
    · simp at h

/-- C9, at the names of the specification: `host01.mem` for the prefix
`host01`, `mem` for the empty prefix, and `host01.eth0` for a line of
`eth0`. -/
theorem series_name_rule_witness :
    (∃ s, mem sampleOS "host01" = Except.ok s ∧ s.Name = "host01.mem")
      ∧ (∃ s, mem sampleOS "" = Except.ok s ∧ s.Name = "mem")
      ∧ (∃ s, network_parse_iface_line "host01"
            "  eth0: 100 2 0 0 0 0 0 0 200 3 0 0 0 0 0 0" =
              Run.done { serie := some s, err := none } ∧ s.Name = "host01.eth0") :=
  ⟨⟨_, rfl, (series_name_rule sampleOS "host01").2.2.2.1 _ rfl⟩,
   ⟨_, rfl, (series_name_rule sampleOS "").2.2.2.1 _ rfl⟩,
   ⟨{ sampleEth0 with Name := "host01.eth0" }, by decide,
    (series_name_rule sampleOS "host01").2.2.2.2.2.2.2
      "  eth0: 100 2 0 0 0 0 0 0 200 3 0 0 0 0 0 0"
      { sampleEth0 with Name := "host01.eth0" } none (by decide)⟩⟩

/-! ## The library helpers meet their description -/

theorem goFieldsAux_spaces (ws rest : List Char) (h : ∀ c ∈ ws, isSpace c = true) :
    goFieldsAux (ws ++ rest) [] = goFieldsAux rest [] := by
  induction ws with
  | nil => rfl
  | cons c cs ih =>
    have hc : isSpace c = true := h c (by simp)
    have hcs : ∀ d ∈ cs, isSpace d = true := fun d hd => h d (by simp [hd])
    simp [goFieldsAux, hc, ih hcs]

theorem goFieldsAux_token (tok : List Char) (h : ∀ c ∈ tok, isSpace c = false) :
    ∀ (rest cur : List Char),
      goFieldsAux (tok ++ rest) cur = goFieldsAux rest (tok.reverse ++ cur) := by
  induction tok with
  | nil => intro rest cur; rfl
  | cons c cs ih =>
    intro rest cur
    have hc : isSpace c = false := h c (by simp)
    have hcs : ∀ d ∈ cs, isSpace d = false := fun d hd => h d (by simp [hd])
    simp [goFieldsAux, hc, ih hcs]

theorem goFields_spaces (ws : List Char) (h : ∀ c ∈ ws, isSpace c = true) :
    goFields ws = [] := by
  have := goFieldsAux_spaces ws [] h
  simpa [goFields, goFieldsAux] using this

theorem goFields_last_token (ws tok : List Char) (hws : ∀ c ∈ ws, isSpace c = true)
    (htok : ∀ c ∈ tok, isSpace c = false) (hne : tok ≠ []) :
    goFields (ws ++ tok) = [tok] := by
  have h := goFieldsAux_token tok htok [] []
  simp only [List.append_nil] at h
  unfold goFields
  rw [goFieldsAux_spaces ws tok hws, h]
  simp [goFieldsAux, hne]

theorem goFields_token_cons (ws tok rest : List Char) (sp : Char)
    (hws : ∀ c ∈ ws, isSpace c = true)
    (htok : ∀ c ∈ tok, isSpace c = false) (hne : tok ≠ []) (hsp : isSpace sp = true) :
    goFields (ws ++ (tok ++ sp :: rest)) = tok :: goFields rest := by
  unfold goFields
  rw [goFieldsAux_spaces ws _ hws, goFieldsAux_token tok htok]
  simp [goFieldsAux, hsp, hne]

theorem parseDigits_digitChars (ds : List Nat) (h : ∀ d ∈ ds, d < 10) :
    ∀ acc, parseDigits (ds.map Nat.digitChar) acc =
      some (acc * 10 ^ ds.length + Nat.ofDigits 10 ds.reverse) := by
  induction ds with
  | nil => intro acc; simp [parseDigits]
  | cons d ds ih =>
    intro acc
    have hd : d < 10 := h d (by simp)
    have hds : ∀ e ∈ ds, e < 10 := fun e he => h e (by simp [he])
    have hchar : ('0' ≤ Nat.digitChar d ∧ Nat.digitChar d ≤ '9') ∧
        (Nat.digitChar d).toNat - '0'.toNat = d := by
      interval_cases d <;> decide
    simp only [List.map_cons, parseDigits, hchar.1, and_self, if_true, hchar.2, ih hds]
    simp only [List.reverse_cons, Nat.ofDigits_append, Nat.ofDigits_singleton,
      List.length_reverse, List.length_cons, Option.some.injEq]
    ring

theorem splitSign_unsigned (c : Char) (cs : List Char) (h1 : c ≠ '-') (h2 : c ≠ '+') :
    splitSign (c :: cs) = (false, c :: cs) := by
  unfold splitSign
  split
  · next heq => exact absurd (List.cons.inj heq).1 h1
  · next heq => exact absurd (List.cons.inj heq).1 h2
  · rfl

theorem atoi_digitChars (ds : List Nat) (h : ∀ d ∈ ds, d < 10) (hne : ds ≠ [])
    (hfit : Nat.ofDigits 10 ds.reverse < 2 ^ 63) :
    atoi (ds.map Nat.digitChar) = some ((Nat.ofDigits 10 ds.reverse : Nat) : Int) := by
  cases ds with
  | nil => exact absurd rfl hne
  | cons d ds =>
    have hd : d < 10 := h d (by simp)
    have hp := parseDigits_digitChars (d :: ds) h 0
    simp only [zero_mul, zero_add] at hp
    have hsign : Nat.digitChar d ≠ '-' ∧ Nat.digitChar d ≠ '+' := by
      interval_cases d <;> decide
    simp only [List.map_cons] at hp ⊢
    have hfit2 : Nat.ofDigits 10 (d :: ds).reverse < 2 ^ (intSize - 1) := hfit
    simp only [atoi, splitSign_unsigned _ _ hsign.1 hsign.2, hp, hfit2]
    simp

end Sysinfo
